import Mathlib

/-!
Verification development for the `fhe_strings` encrypted-string library
(examples/fhe_strings: `ciphertext.rs`, `client_key.rs`, `pattern_matcher.rs`,
`main.rs`).

The FHE layer is modelled shallowly over plaintext values: an encrypted u8 is a
`Nat` (< 256 in every real execution), an encrypted u16 a `Nat` reduced mod
2^16 where the code can wrap, an encrypted i16 an `Int` normalised into
[-32768, 32767], and an encrypted bool a `Bool`.  Trivial encryption and
decryption are the identity at this level; `StringClientKey::decrypt`
additionally drops zero bytes.  Fallible code (assertion failures / panics)
is modelled with `Option`.
-/

namespace FheStrings

/-- `Padding` / `PaddingOptions` from ciphertext.rs: three public flags saying
where zero bytes may occur inside a ciphertext string. -/
structure PaddingOptions where
  start : Bool
  middle : Bool
  «end» : Bool
deriving DecidableEq, Repr

/-- No-padding descriptor, `PaddingOptions::default()`. -/
def PaddingOptions.none : PaddingOptions := ⟨false, false, false⟩

/-- `FheString` from ciphertext.rs: a vector of encrypted ASCII bytes (here
their plaintext values) plus the public padding descriptor. -/
structure FheString where
  chars : List Nat
  padding : PaddingOptions
deriving DecidableEq, Repr

/-- `FheString::has_padding`: `start | middle | end`. -/
def FheString.hasPadding (s : FheString) : Bool :=
  s.padding.start || s.padding.middle || s.padding.«end»

/-- `FheString::len`: running u16 sum of `byte != 0` over all slots
(each addition wraps mod 2^16 as FheUint16 addition does). -/
def FheString.lenVal (s : FheString) : Nat :=
  s.chars.foldl (fun acc c => (acc + (if c ≠ 0 then 1 else 0)) % 65536) 0

/-- `FheString::reversed`: reverse the byte vector and swap the `start` and
`end` padding flags. -/
def FheString.reversed (s : FheString) : FheString :=
  { chars := s.chars.reverse
    padding := ⟨s.padding.«end», s.padding.middle, s.padding.start⟩ }

/-- `FheAsciiChar::to_upper`: subtract 32 iff the byte is a lowercase ASCII
letter (`96 < b < 123`).  On the u8 domain the wrapping subtraction
`b - 32` equals `(b + 224) % 256`. -/
def toUpperByte (b : Nat) : Nat :=
  if 96 < b ∧ b < 123 then (b + 224) % 256 else b

/-- `FheAsciiChar::to_lower`: add 32 iff the byte is an uppercase ASCII
letter (`64 < b < 91`). -/
def toLowerByte (b : Nat) : Nat :=
  if 64 < b ∧ b < 91 then (b + 32) % 256 else b

/-- `FheString::to_uppercase`: per-byte `to_upper`, padding unchanged. -/
def FheString.toUppercase (s : FheString) : FheString :=
  { chars := s.chars.map toUpperByte, padding := s.padding }

/-- `FheString::to_lowercase`: per-byte `to_lower`, padding unchanged. -/
def FheString.toLowercase (s : FheString) : FheString :=
  { chars := s.chars.map toLowerByte, padding := s.padding }

/-- `FheAsciiChar::is_whitespace`: OR of equality with the five ASCII
whitespace bytes 9, 10, 11, 13, 32. -/
def isWhitespaceByte (b : Nat) : Bool :=
  b == 9 || b == 10 || b == 11 || b == 13 || b == 32

/-- `FheString::trim_helper`: one pass with a running `prev_zeroed` flag;
`must_zero = prev_zeroed AND (is_whitespace OR byte == 0)` and
`byte' = byte AND (0xFF * !must_zero)`. -/
def trimHelper (bytes : List Nat) : List Nat :=
  (bytes.foldl
    (fun (st : List Nat × Bool) b =>
      let mustZero := st.2 && (isWhitespaceByte b || b == 0)
      let newByte := b &&& ((if mustZero then 0 else 1) * 255)
      (st.1 ++ [newByte], mustZero))
    ([], true)).1

/-- `FheString::trim_end`: run `trim_helper` over the reversed byte vector,
reverse back, and set the result's `start` padding flag (sic — the code sets
`start`, not `end`, exactly as `trim_start` does). -/
def FheString.trimEnd (s : FheString) : FheString :=
  { chars := (trimHelper s.chars.reverse).reverse
    padding := ⟨true, s.padding.middle, s.padding.«end»⟩ }

/-- `FheString::trim_start`: forward `trim_helper` pass, `start` flag set. -/
def FheString.trimStart (s : FheString) : FheString :=
  { chars := trimHelper s.chars
    padding := ⟨true, s.padding.middle, s.padding.«end»⟩ }

/-! ### Client key (client_key.rs) -/

/-- `str::is_ascii` over the modelled bytes. -/
def isAsciiStr (s : List Nat) : Bool := s.all (· ≤ 127)

/-- `clear_str.contains('\0')`. -/
def containsNul (s : List Nat) : Bool := s.contains 0

/-- Number of padding zeros appended by `StringClientKey::encrypt` for a
padding block size `padding` and an input of length `len`:
`0 => is_empty as usize; _ => if len >= padding { len % padding } else
{ padding - len }`. -/
def nbPadZeros (padding len : Nat) : Nat :=
  match padding with
  | 0 => if len = 0 then 1 else 0
  | _ => if len ≥ padding then len % padding else padding - len

/-- `StringClientKey::encrypt`: assert ASCII and no NUL byte (modelled as
`Option.none` on failure), append the padding zeros, and set the padding
descriptor to `{start: false, middle: false, end: padding > 0}`. -/
def encrypt (padding : Nat) (s : List Nat) : Option FheString :=
  if isAsciiStr s && !containsNul s then
    some { chars := s ++ List.replicate (nbPadZeros padding s.length) 0
           padding := ⟨false, false, decide (padding > 0)⟩ }
  else
    Option.none

/-- `StringClientKey::decrypt`: decrypt every byte and drop the zeros. -/
def decryptStr (s : FheString) : List Nat :=
  s.chars.filter (· ≠ 0)

/-! ### Pattern matching engine (pattern_matcher.rs) -/

/-- `MatchResult`: kind of value the engine returns. -/
inductive MatchResult where
  | Bool
  | StartIndex
  | RawStartIndex
deriving DecidableEq, Repr

/-- `MatchingOptions`: anchors and the result kind. -/
structure MatchingOptions where
  sof : Bool
  eof : Bool
  result : MatchResult
deriving DecidableEq, Repr

/-- `Pattern`: a clear byte string or an encrypted one. -/
inductive Pattern where
  | Clear (s : List Nat)
  | Encrypted (s : FheString)
deriving DecidableEq, Repr

/-- `Pattern::has_padding`. -/
def Pattern.hasPadding : Pattern → Bool
  | .Clear _ => false
  | .Encrypted p => p.hasPadding

/-- `Pattern::len`. -/
def Pattern.len : Pattern → Nat
  | .Clear s => s.length
  | .Encrypted p => p.chars.length

/-- `PatternId`: what a content position is compared against. -/
inductive PatternId where
  | Zero
  | Index (p : Nat)
  | Byte (b : Nat)
deriving DecidableEq, Repr

/-- `Execution`: the structurally-hashed plan node. -/
inductive Execution where
  | Eq (cPos : Nat) (pId : PatternId)
  | And (lRes rRes : Execution)
  | Or (lRes rRes : Execution)
  | IndexMatch (cPos pPos : Nat)
  | PatternMatch (cPos pPos : Nat)
  | StartIndex (lRes rRes : Execution)
deriving DecidableEq, Repr

/-- `ExecutionTree`: the balanced reduction tree built before insertion. -/
inductive ExecutionTree where
  | Leaf (ex : Execution)
  | Node (op : Execution) (left right : ExecutionTree)
deriving DecidableEq, Repr

/-- The op at the root of an `ExecutionTree` (the value
`insert_execution_tree` returns). -/
def ExecutionTree.rootOp : ExecutionTree → Execution
  | .Leaf ex => ex
  | .Node op _ _ => op

/-- `make_bitwise_op` in `build_bitwise_execution_tree`: combine two operand
executions with the bitwise op selected by `op_type` ("and" / "or" /
"start_index"; any other string panics, modelled by a junk node). -/
def makeBitwiseOp (opType : String) (l r : Execution) : Execution :=
  match opType with
  | "and" => .And l r
  | "or" => .Or l r
  | "start_index" => .StartIndex l r
  | _ => .Eq 0 .Zero

/-- One pairing pass of `build_bitwise_execution_tree`'s while loop: chunk the
node list two by two; a trailing chunk of one pairs the node with itself;
`(Leaf, Leaf)` and `(Node, Node)` chunks combine their ops, a mismatch panics
(junk node). -/
def chunkPairs (opType : String) : List ExecutionTree → List ExecutionTree
  | [] => []
  | [a] =>
    [ExecutionTree.Node
      (match a, a with
       | .Leaf l, .Leaf r => makeBitwiseOp opType l r
       | .Node lop _ _, .Node rop _ _ => makeBitwiseOp opType lop rop
       | _, _ => .Eq 0 .Zero)
      a a]
  | a :: b :: rest =>
    ExecutionTree.Node
      (match a, b with
       | .Leaf l, .Leaf r => makeBitwiseOp opType l r
       | .Node lop _ _, .Node rop _ _ => makeBitwiseOp opType lop rop
       | _, _ => .Eq 0 .Zero)
      a b :: chunkPairs opType rest

/-- Fuel-bounded iteration of the pairing passes (the list at least halves
each pass, so `fuel = length` always suffices). -/
def buildTreeAux (opType : String) : Nat → List ExecutionTree → List ExecutionTree
  | 0, nodes => nodes
  | fuel + 1, nodes =>
    if nodes.length ≤ 1 then nodes
    else buildTreeAux opType fuel (chunkPairs opType nodes)

/-- `build_bitwise_execution_tree`: reduce the node list to a single balanced
tree (an empty list panics, modelled by a junk leaf). -/
def buildBitwiseExecutionTree (nodes : List ExecutionTree) (opType : String) :
    ExecutionTree :=
  match buildTreeAux opType nodes.length nodes with
  | [t] => t
  | _ => .Leaf (.Eq 0 .Zero)

/-- `build_leaves`: the leaf row for positions `c_start..=c_end`.  A spurious
copy of the first leaf is prepended when the range is a single position or
when `c_start` is odd, so pairing boundaries stay on even indices. -/
def buildLeaves (cStart cEnd : Nat) (pId : PatternId) (opType : String) :
    List ExecutionTree :=
  let mk : Nat → Execution := fun cPos =>
    match opType with
    | "and" => .Eq cPos pId
    | "or" =>
      match pId with
      | .Index pPos => .PatternMatch cPos pPos
      | _ => .Eq 0 .Zero
    | "start_index" =>
      match pId with
      | .Index pPos => .IndexMatch cPos pPos
      | _ => .Eq 0 .Zero
    | _ => .Eq 0 .Zero
  (if cEnd - cStart < 1 ∨ cStart % 2 > 0 then [ExecutionTree.Leaf (mk cStart)]
   else []) ++
    (List.range' cStart (cEnd + 1 - cStart)).map (fun i => ExecutionTree.Leaf (mk i))

/-- The `PatternId` chosen for the pattern-consuming branch at pattern
position `p_pos` (`Byte` for a clear pattern, `Index` for an encrypted one). -/
def pidOf (pattern : Pattern) (pPos : Nat) : PatternId :=
  match pattern with
  | .Clear s => .Byte (s.getD pPos 0)
  | .Encrypted _ => .Index pPos

/-- `consume_pattern`: the execution that consumes the content byte at
`c_pos` as `p_id` (a pattern byte or a zero), ANDed with the rest of the
pattern match when more than one pattern byte remains, and with
zero-prefix/suffix clamps when the anchors require them. -/
def consumePattern (content : FheString) (mo : MatchingOptions)
    (cPos remainC pPos remainP : Nat) (pId : PatternId) : Execution :=
  let zeroPrefixed :=
    cPos > 0 ∧ pPos = 0 ∧ mo.sof = true ∧ content.padding.start = true
  let zeroSuffixed :=
    remainC > 1 ∧ remainP = 1 ∧ mo.eof = true ∧ content.padding.«end» = true
  let pEq := Execution.Eq cPos pId
  let mainMatch :=
    if remainP < 2 then pEq
    else
      .And pEq
        (.PatternMatch (cPos + 1) (if pId = .Zero then pPos else pPos + 1))
  let zeroRange : Nat → Nat → Execution := fun a b =>
    (buildBitwiseExecutionTree (buildLeaves a b .Zero "and") "and").rootOp
  match decide zeroPrefixed, decide zeroSuffixed with
  | false, false => mainMatch
  | true, false => .And (zeroRange 0 (cPos - 1)) mainMatch
  | false, true => .And mainMatch (zeroRange (cPos + 1) (cPos + remainC - 1))
  | true, true =>
    .And (.And (zeroRange 0 (cPos - 1)) mainMatch)
      (zeroRange (cPos + 1) (cPos + remainC - 1))

/-- The `can_consume_zero` condition of `build_execution_plan`:
`remain_c > remain_p` and the padding region for `p_pos` allows zeros. -/
def canConsumeZero (content : FheString) (pattern : Pattern) (cPos pPos : Nat) :
    Bool :=
  let remainC := content.chars.length - cPos
  let remainP := pattern.len - pPos
  decide (remainC > remainP) &&
    ((pPos == 0 && content.padding.start) ||
      (decide (pPos > 0) && content.padding.middle) ||
      (remainP == 0 && content.padding.«end»))

/-- The zero-consuming right branch built at state `(c_pos, p_pos)`: present
iff `can_consume_zero`, in which case it is `consume_pattern` with
`PatternId::Zero`. -/
def rightBranchOf (content : FheString) (pattern : Pattern)
    (mo : MatchingOptions) (cPos pPos : Nat) : Option Execution :=
  if canConsumeZero content pattern cPos pPos then
    some (consumePattern content mo cPos (content.chars.length - cPos) pPos
      (pattern.len - pPos) .Zero)
  else
    Option.none

/-- The pattern-consuming left branch built at state `(c_pos, p_pos)`:
present iff some pattern remains. -/
def leftBranchOf (content : FheString) (pattern : Pattern)
    (mo : MatchingOptions) (cPos pPos : Nat) : Option Execution :=
  if pattern.len - pPos > 0 then
    some (consumePattern content mo cPos (content.chars.length - cPos) pPos
      (pattern.len - pPos) (pidOf pattern pPos))
  else
    Option.none

/-- The combinator execution associated to `PatternMatch(c_pos, p_pos)` in
`pm_cache` (the OR of both branches, or the single branch built; building no
branch panics, modelled by a junk node). -/
def pmBranch (content : FheString) (pattern : Pattern) (mo : MatchingOptions)
    (cPos pPos : Nat) : Execution :=
  match leftBranchOf content pattern mo cPos pPos,
      rightBranchOf content pattern mo cPos pPos with
  | some l, some r => .Or l r
  | some l, Option.none => l
  | Option.none, some r => r
  | Option.none, Option.none => .Eq 0 .Zero

/-- `max_start` in `build_execution_plan`: 0 when `sof`, else `N - M`. -/
def maxStart (content : FheString) (pattern : Pattern) (mo : MatchingOptions) :
    Nat :=
  if mo.sof then 0 else content.chars.length - pattern.len

/-- The top-level combinator `build_execution_plan` returns: the root of the
balanced tree over the candidate starts (`PatternMatch` leaves for Bool,
`IndexMatch` leaves for index results). -/
def finalOp (content : FheString) (pattern : Pattern) (mo : MatchingOptions) :
    Execution :=
  let opType :=
    match mo.result with
    | .Bool => "or"
    | .StartIndex => "start_index"
    | .RawStartIndex => "start_index"
  (buildBitwiseExecutionTree
    (buildLeaves 0 (maxStart content pattern mo) (.Index 0) opType) opType).rootOp

/-- The states `(c_pos, p_pos)` popped off the worklist of
`build_execution_plan`, in processing order (`Vec::pop` is LIFO; the
pattern-advance push happens before the zero-consume push, so the latter is
popped first).  Fuel-bounded; the worklist terminates because positions are
bounded by the string lengths. -/
def planStatesAux (content : FheString) (pattern : Pattern)
    (mo : MatchingOptions) :
    Nat → List (Nat × Nat) → List (Nat × Nat) → List (Nat × Nat)
  | 0, _, visited => visited.reverse
  | _ + 1, [], visited => visited.reverse
  | fuel + 1, (cPos, pPos) :: rest, visited =>
    if (cPos, pPos) ∈ visited then
      planStatesAux content pattern mo fuel rest visited
    else
      let remainP := pattern.len - pPos
      let lPush : List (Nat × Nat) :=
        if remainP > 1 then [(cPos + 1, pPos + 1)] else []
      let rPush : List (Nat × Nat) :=
        if canConsumeZero content pattern cPos pPos then [(cPos + 1, pPos)]
        else []
      planStatesAux content pattern mo fuel (rPush ++ lPush ++ rest)
        ((cPos, pPos) :: visited)

/-- All states processed by `build_execution_plan`'s worklist, seeded with
`(0, 0) .. (max_start, 0)` and popped from the top of the stack. -/
def planStates (content : FheString) (pattern : Pattern)
    (mo : MatchingOptions) (fuel : Nat) : List (Nat × Nat) :=
  let seeds :=
    ((List.range (maxStart content pattern mo + 1)).map fun c => (c, 0)).reverse
  planStatesAux content pattern mo fuel seeds []

/-- `FheResult`: an encrypted boolean or an encrypted u16. -/
inductive FheResult where
  | b (v : Bool)
  | u (v : Nat)
deriving DecidableEq, Repr

/-- The (deterministic) value the evaluation waves assign to a plan node.
`Eq` compares bytes, `And`/`Or` are boolean, `StartIndex` computes
`l | (r & (0xFFFF * !(l > 0)))` over u16, `IndexMatch(c,p)` is
`(c+1 as u16) & (0xFFFF * (PM(c,p) & content[c] > 0))`, and
`PatternMatch(c,p)` takes the value of its `pm_cache` combinator.  `none`
models a node the waves can never fill (and fuel exhaustion, which cannot
happen on the acyclic plans the engine builds, given enough fuel). -/
def evalExec (content : FheString) (pattern : Pattern) (mo : MatchingOptions) :
    Nat → Execution → Option FheResult
  | 0, _ => Option.none
  | fuel + 1, ex =>
    match ex with
    | .Eq cPos pId =>
      match pId with
      | .Zero => some (.b (content.chars.getD cPos 0 == 0))
      | .Byte b => some (.b (content.chars.getD cPos 0 == b))
      | .Index pPos =>
        match pattern with
        | .Encrypted p =>
          some (.b (content.chars.getD cPos 0 == p.chars.getD pPos 0))
        | .Clear _ => Option.none
    | .And l r =>
      match evalExec content pattern mo fuel l,
          evalExec content pattern mo fuel r with
      | some (.b a), some (.b b) => some (.b (a && b))
      | _, _ => Option.none
    | .Or l r =>
      match evalExec content pattern mo fuel l,
          evalExec content pattern mo fuel r with
      | some (.b a), some (.b b) => some (.b (a || b))
      | _, _ => Option.none
    | .StartIndex l r =>
      match evalExec content pattern mo fuel l,
          evalExec content pattern mo fuel r with
      | some (.u a), some (.u b) =>
        some (.u (a ||| (b &&& ((if 0 < a then 0 else 1) * 65535))))
      | _, _ => Option.none
    | .IndexMatch cPos pPos =>
      match evalExec content pattern mo fuel (.PatternMatch cPos pPos) with
      | some (.b pm) =>
        let mustKeep := pm && decide (0 < content.chars.getD cPos 0)
        some (.u (((cPos + 1) % 65536) &&& ((if mustKeep then 1 else 0) * 65535)))
      | _ => Option.none
    | .PatternMatch cPos pPos =>
      evalExec content pattern mo fuel (pmBranch content pattern mo cPos pPos)

/-- `SimpleEngine::find_match`: panic on a padded pattern (modelled `none`),
build the plan and evaluate its final op.  NOTE: the public fast-reject at
the top of `find_match` computes its trivially-encrypted result but drops it
(the `match` is an expression statement, not a `return`), so it is *not*
modelled as an early return — execution always proceeds to the plan. -/
def findMatch (content : FheString) (pattern : Pattern) (mo : MatchingOptions)
    (fuel : Nat) : Option FheResult :=
  if pattern.hasPadding then Option.none
  else evalExec content pattern mo fuel (finalOp content pattern mo)

/-- `SimpleEngine::has_match`: the Bool result of `find_match`. -/
def hasMatch (content : FheString) (pattern : Pattern) (mo : MatchingOptions)
    (fuel : Nat) : Option Bool :=
  match findMatch content pattern mo fuel with
  | some (.b v) => some v
  | _ => Option.none

/-! ### 16-bit arithmetic helpers (FheInt16 / FheUint16 casts) -/

/-- Normalise an integer into the i16 range (two's-complement wrap). -/
def i16w (x : Int) : Int := (x + 32768) % 65536 - 32768

/-- `FheInt16::cast_from(FheUint16)`: reinterpret the low 16 bits. -/
def i16ofU16 (u : Nat) : Int := if u < 32768 then (u : Int) else (u : Int) - 65536

/-- Wrapping i16 addition. -/
def i16add (a b : Int) : Int := i16w (a + b)

/-- Wrapping i16 subtraction. -/
def i16sub (a b : Int) : Int := i16w (a - b)

/-- Wrapping i16 multiplication. -/
def i16mul (a b : Int) : Int := i16w (a * b)

/-- `nb_zeros_before`: encrypted count (u16, wrapping) of zero bytes at
positions `i` with `index > i as u16`, cast to i16. -/
def nbZerosBefore (content : FheString) (index : Nat) : Int :=
  i16ofU16
    (content.chars.enum.foldl
      (fun acc ic =>
        (acc + if ic.2 == 0 && decide (index > ic.1 % 65536) then 1 else 0) %
          65536)
      0)

/-- `SimpleEngine::find`: take the u16 raw index from `find_match`, compute
the padding shift (`0` for `RawStartIndex`, else
`cast(raw > 1) * nb_zeros_before`), and return `cast(raw) - shift - 1` in
wrapping i16 arithmetic.  A non-Uint result panics (`none`). -/
def engineFind (content : FheString) (pattern : Pattern) (mo : MatchingOptions)
    (fuel : Nat) : Option Int :=
  match findMatch content pattern mo fuel with
  | some (.u result) =>
    let shiftCount : Int :=
      match mo.result with
      | .RawStartIndex => 0
      | _ =>
        i16mul (if 1 < result then 1 else 0) (nbZerosBefore content result)
    some (i16sub (i16sub (i16ofU16 result) shiftCount) 1)
  | _ => Option.none

/-- `FheString::find`: engine find with `sof=false, eof=false, StartIndex`
on an encrypted pattern. -/
def FheString.find (s : FheString) (pattern : FheString) (fuel : Nat) :
    Option Int :=
  engineFind s (.Encrypted pattern) ⟨false, false, .StartIndex⟩ fuel

/-- `FheString::rfind`: find on the reversed pair, then
`cast(rev > -1) * (s_len - p_len - rev + 1) - 1` in wrapping i16 arithmetic,
where `s_len` is `cast_from(self.len())` (the encrypted count of non-zero
bytes) and `p_len` is the trivial encryption of `pattern.chars.len() as i16`. -/
def FheString.rfind (s : FheString) (pattern : FheString) (fuel : Nat) :
    Option Int :=
  match (s.reversed).find pattern.reversed fuel with
  | some revFind =>
    let sLen := i16ofU16 s.lenVal
    let pLen := i16w (pattern.chars.length : Int)
    some (i16sub
      (i16mul (if (-1 : Int) < revFind then 1 else 0)
        (i16add (i16sub (i16sub sLen pLen) revFind) 1))
      1)
  | Option.none => Option.none

/-- Claim C7's formula for `rfind`, taken from the spec's words: find on the
reversed pair mapped back via `N - M - rev_idx + 1 - 1` masked by
`rev_idx > -1`, where `N` is the *public ciphertext length*
(`s.chars.length`) rather than the encrypted non-zero count the code uses. -/
def rfindClaim (s pattern : FheString) (fuel : Nat) : Option Int :=
  match (s.reversed).find pattern.reversed fuel with
  | some revFind =>
    let sLen := i16w (s.chars.length : Int)
    let pLen := i16w (pattern.chars.length : Int)
    some (i16sub
      (i16mul (if (-1 : Int) < revFind then 1 else 0)
        (i16add (i16sub (i16sub sLen pLen) revFind) 1))
      1)
  | Option.none => Option.none

/-- Amended-claim formula for `rfind`: the same mapping-back but with the
length the code actually uses — the encrypted count of non-zero bytes
`self.len()` — and the mask written out as a conditional: the result is
`len(S) - M - rev + 1 - 1` (i16-wrapped) when the reversed find reports a
match and `-1` otherwise. -/
def rfindSpec (s pattern : FheString) (fuel : Nat) : Option Int :=
  match (s.reversed).find pattern.reversed fuel with
  | some revFind =>
    some
      (if (-1 : Int) < revFind then
        i16w ((s.lenVal : Int) - (pattern.chars.length : Int) - revFind + 1 - 1)
      else -1)
  | Option.none => Option.none

/-! ### Helper lemmas -/

/-- The wrapping u16 count of non-zero bytes is below 2^16. -/
theorem lenVal_lt (s : FheString) : s.lenVal < 65536 := by
  unfold FheString.lenVal
  have h : ∀ (l : List Nat) (acc : Nat), acc < 65536 →
      l.foldl (fun acc c => (acc + (if c ≠ 0 then 1 else 0)) % 65536) acc < 65536 := by
    intro l
    induction l with
    | nil => intro acc hacc; simpa using hacc
    | cons x xs ih =>
      intro acc hacc
      simp only [List.foldl_cons]
      exact ih _ (Nat.mod_lt _ (by norm_num))
  exact h _ 0 (by norm_num)

/-- Applying `to_upper` twice changes nothing on top of one application. -/
theorem toUpperByte_idem (b : Nat) : toUpperByte (toUpperByte b) = toUpperByte b := by
  unfold toUpperByte
  split_ifs <;> omega

/-- Applying `to_lower` twice changes nothing on top of one application. -/
theorem toLowerByte_idem (b : Nat) : toLowerByte (toLowerByte b) = toLowerByte b := by
  unfold toLowerByte
  split_ifs <;> omega

/-! ### Claim C1 -/

/-- Claim C1 (code bug witness): the claim says that with `sof ∧ eof` set, no
padding on `S` and `N ≠ M`, the engine returns a trivially-encrypted `false`
as an early return without building an execution plan.  In the code the
fast-reject `match` at the top of `find_match` is an expression statement
whose value is dropped (there is no `return`, unlike the sibling revision in
regex/simple_engine.rs), so the engine falls through, builds the plan and
here returns encrypted `true` for `S = "ab"` (N = 2, no padding) against
`P = "a"` (M = 1) with `sof = eof = true`. -/
theorem C1_fast_reject_discarded :
    hasMatch ⟨[97, 98], ⟨false, false, false⟩⟩ (.Clear [97])
      ⟨true, true, .Bool⟩ 32 = some true := by
  decide

/-! ### Claim C2 -/

/-- Claim C2 counterexample: for `S = "a"` (unpadded) and `P = "a"`, the plan
evaluation produces the raw 1-based index 1, but `find` with
`result = RawStartIndex` returns 0 — the raw value is *not* returned
unchanged, a constant 1 is subtracted. -/
theorem C2_raw_index_counterexample :
    engineFind ⟨[97], ⟨false, false, false⟩⟩ (.Clear [97])
        ⟨false, false, .RawStartIndex⟩ 32 = some 0 ∧
      findMatch ⟨[97], ⟨false, false, false⟩⟩ (.Clear [97])
        ⟨false, false, .RawStartIndex⟩ 32 = some (.u 1) ∧
      (0 : Int) ≠ (1 : Int) := by
  refine ⟨by decide, by decide, by decide⟩

/-- Claim C2 as amended: with `result = RawStartIndex`, `find` applies no
padding adjustment (the shift term is a trivial 0) and returns the raw
1-based plan value minus one — a 0-based physical index with -1 meaning no
match. -/
theorem C2_raw_index_minus_one (content : FheString) (pattern : Pattern)
    (mo : MatchingOptions) (fuel raw : Nat)
    (hres : mo.result = MatchResult.RawStartIndex)
    (hraw : findMatch content pattern mo fuel = some (.u raw)) :
    engineFind content pattern mo fuel = some (i16sub (i16ofU16 raw) 1) ∧
      (raw < 32768 →
        engineFind content pattern mo fuel = some ((raw : Int) - 1)) := by
  have h : engineFind content pattern mo fuel =
      some (i16sub (i16sub (i16ofU16 raw) 0) 1) := by
    simp only [engineFind, hraw, hres]
  constructor
  · rw [h]; congr 1; unfold i16sub i16w; omega
  · intro hlt
    rw [h]
    congr 1
    unfold i16sub i16w i16ofU16
    split_ifs
    all_goals omega

/-- Witness for `C2_raw_index_minus_one` at `S = "a"`, `P = "a"`:
the raw value is 1 and `find` returns `1 - 1 = 0`. -/
theorem C2_raw_index_minus_one_witness :
    engineFind ⟨[97], ⟨false, false, false⟩⟩ (.Clear [97])
      ⟨false, false, .RawStartIndex⟩ 32 = some (((1 : Nat) : Int) - 1) :=
  (C2_raw_index_minus_one ⟨[97], ⟨false, false, false⟩⟩ (.Clear [97])
    ⟨false, false, .RawStartIndex⟩ 32 1 rfl (by decide)).2 (by decide)

/-! ### Claim C3 -/

/-- Claim C3 counterexample: for content `[0, 'a']` with start padding and
pattern `"a"`, the construction worklist processes state `(1, 0)`; there the
claim's condition holds (the `p = 0` region allows zeros via `Padding.start`
and `N - c = 1 ≥ M - p = 1`) yet no zero-consuming right branch is built,
because the code requires the *strict* `N - c > M - p`.  Moreover at state
`(0, 0)` a right branch is built but it is the bare `Eq(0, Zero)`, not the
`Eq(0, Zero) AND PatternMatch(1, 0)` shape the claim states (the
`PatternMatch` conjunct only appears when at least two pattern bytes
remain). -/
theorem C3_zero_branch_counterexample :
    (1, 0) ∈ planStates ⟨[0, 97], ⟨true, false, false⟩⟩ (.Clear [97])
        ⟨false, false, .Bool⟩ 64 ∧
      rightBranchOf ⟨[0, 97], ⟨true, false, false⟩⟩ (.Clear [97])
        ⟨false, false, .Bool⟩ 1 0 = Option.none ∧
      (⟨[0, 97], ⟨true, false, false⟩⟩ : FheString).padding.start = true ∧
      (⟨[0, 97], ⟨true, false, false⟩⟩ : FheString).chars.length - 1 ≥
        (Pattern.Clear [97]).len - 0 ∧
      rightBranchOf ⟨[0, 97], ⟨true, false, false⟩⟩ (.Clear [97])
        ⟨false, false, .Bool⟩ 0 0 = some (.Eq 0 .Zero) ∧
      Execution.Eq 0 .Zero ≠
        Execution.And (.Eq 0 .Zero) (.PatternMatch 1 0) := by
  refine ⟨by decide, by decide, by decide, by decide, by decide, by decide⟩

/-- Claim C3 as amended: at every state `(c, p)` with `p < M`, the
zero-consuming right branch is built iff the padding region for `p` allows
zeros (`p = 0` requires `Padding.start`, `p > 0` requires `Padding.middle`;
`p = M` is never reached by the worklist) and `N - c > M - p` holds
*strictly*; when built (and no anchored zero-prefix/suffix clamp applies,
i.e. `sof = eof = false`) the branch is
`Eq(c, Zero) AND PatternMatch(c+1, p)` when `M - p ≥ 2` and the bare
`Eq(c, Zero)` when `M - p = 1`. -/
theorem C3_zero_branch_condition (content : FheString) (pattern : Pattern)
    (mo : MatchingOptions) (cPos pPos : Nat) (hp : pPos < pattern.len) :
    ((rightBranchOf content pattern mo cPos pPos).isSome = true ↔
      (((pPos = 0 ∧ content.padding.start = true) ∨
          (0 < pPos ∧ content.padding.middle = true)) ∧
        pattern.len - pPos < content.chars.length - cPos)) ∧
      (∀ e, mo.sof = false → mo.eof = false →
        rightBranchOf content pattern mo cPos pPos = some e →
          e = if 2 ≤ pattern.len - pPos then
                Execution.And (.Eq cPos .Zero) (.PatternMatch (cPos + 1) pPos)
              else Execution.Eq cPos .Zero) := by
  have haux : canConsumeZero content pattern cPos pPos = true ↔
      (((pPos = 0 ∧ content.padding.start = true) ∨
          (0 < pPos ∧ content.padding.middle = true)) ∧
        pattern.len - pPos < content.chars.length - cPos) := by
    unfold canConsumeZero
    simp only [Bool.and_eq_true, Bool.or_eq_true, decide_eq_true_eq, beq_iff_eq]
    constructor
    · rintro ⟨hgt, (⟨h0, hs⟩ | ⟨hgt0, hm⟩) | ⟨hz, _⟩⟩
      · exact ⟨Or.inl ⟨h0, hs⟩, hgt⟩
      · exact ⟨Or.inr ⟨hgt0, hm⟩, hgt⟩
      · omega
    · rintro ⟨⟨h0, hs⟩ | ⟨hgt0, hm⟩, hgt⟩
      · exact ⟨hgt, Or.inl (Or.inl ⟨h0, hs⟩)⟩
      · exact ⟨hgt, Or.inl (Or.inr ⟨hgt0, hm⟩)⟩
  constructor
  · have hsome : (rightBranchOf content pattern mo cPos pPos).isSome =
        canConsumeZero content pattern cPos pPos := by
      unfold rightBranchOf
      split <;> simp_all
    rw [hsome]
    exact haux
  · intro e hsof heof he
    unfold rightBranchOf at he
    split at he
    · have hcp : e = consumePattern content mo cPos (content.chars.length - cPos)
          pPos (pattern.len - pPos) .Zero := (Option.some_inj.mp he).symm
      subst hcp
      simp only [consumePattern, hsof, heof]
      norm_num
      split_ifs with h1 h2 <;> first | rfl | omega
    · exact absurd he (by simp)

/-- Witness for `C3_zero_branch_condition`: at content `[0, 'a']` with start
padding, pattern `"a"` and state `(0, 0)` the region allows zeros and
`M - p = 1 < 2 = N - c`, so the right branch is built. -/
theorem C3_zero_branch_condition_witness :
    (rightBranchOf ⟨[0, 97], ⟨true, false, false⟩⟩ (.Clear [97])
      ⟨false, false, .Bool⟩ 0 0).isSome = true :=
  (C3_zero_branch_condition ⟨[0, 97], ⟨true, false, false⟩⟩ (.Clear [97])
    ⟨false, false, .Bool⟩ 0 0 (by decide)).1.mpr
    ⟨Or.inl ⟨rfl, rfl⟩, by decide⟩

/-! ### Claim C4 -/

/-- Claim C4 (code bug witness): the claim (and spec) say the ciphertext
length is a multiple of the padding block size `P` (or at least `P` when the
input is shorter).  For the 5-byte input `"abcde"` with `P = 4` the code
appends `len % P = 1` zero (instead of padding up to a multiple), producing
length 6, which is not a multiple of 4. -/
theorem C4_padding_length_bug :
    (encrypt 4 [97, 98, 99, 100, 101]).map (fun ct => ct.chars.length) =
        some 6 ∧
      (encrypt 4 [97, 98, 99, 100, 101]).map
        (fun ct => ct.chars.length % 4) = some 2 := by
  refine ⟨by decide, by decide⟩

/-! ### Claim C5 -/

/-- Claim C5 (code bug witness): `trim_end` on the unpadded `"a "` produces
bytes `[97, 0]` — a zero introduced in the *end* region — yet the result's
padding descriptor is `{start: true, middle: false, end: false}`: the code
sets the `start` flag (as `trim_start` does) and leaves `end` clear,
violating the monotonicity invariant the claim states. -/
theorem C5_trim_end_padding_bug :
    ((⟨[97, 32], ⟨false, false, false⟩⟩ : FheString).trimEnd).chars =
        [97, 0] ∧
      ((⟨[97, 32], ⟨false, false, false⟩⟩ : FheString).trimEnd).padding =
        ⟨true, false, false⟩ := by
  refine ⟨by decide, by decide⟩

/-! ### Claim C6 -/

/-- Claim C6: evaluating a `StartIndex(l, r)` node over 16-bit operands
yields `l | (r AND (0xFFFF * !(l > 0)))`, which equals `l` whenever
`l > 0` and equals `r` whenever `l = 0` — the leftmost non-zero operand. -/
theorem C6_start_index_fold (content : FheString) (pattern : Pattern)
    (mo : MatchingOptions) (fuel : Nat) (a b : Execution) (l r : Nat)
    (ha : evalExec content pattern mo fuel a = some (.u l))
    (hb : evalExec content pattern mo fuel b = some (.u r))
    (hl : l < 65536) (hr : r < 65536) :
    evalExec content pattern mo (fuel + 1) (.StartIndex a b) =
        some (.u (l ||| (r &&& ((if 0 < l then 0 else 1) * 65535)))) ∧
      (0 < l →
        evalExec content pattern mo (fuel + 1) (.StartIndex a b) =
          some (.u l)) ∧
      (l = 0 →
        evalExec content pattern mo (fuel + 1) (.StartIndex a b) =
          some (.u r)) := by
  have he : evalExec content pattern mo (fuel + 1) (.StartIndex a b) =
      some (.u (l ||| (r &&& ((if 0 < l then 0 else 1) * 65535)))) := by
    simp only [evalExec, ha, hb]
  refine ⟨he, fun hpos => ?_, fun hzero => ?_⟩
  · rw [he, if_pos hpos]
    simp
  · subst hzero
    rw [he, if_neg (by omega)]
    have h65535 : (65535 : Nat) = 2 ^ 16 - 1 := by norm_num
    simp only [one_mul, h65535, Nat.and_pow_two_sub_one_eq_mod, Nat.zero_or]
    rw [Nat.mod_eq_of_lt hr]

/-- Witness for `C6_start_index_fold` with both operands the `IndexMatch`
at `(0, 0)` over `S = P = "a"`, where each evaluates to 1. -/
theorem C6_start_index_fold_witness :
    evalExec ⟨[97], ⟨false, false, false⟩⟩ (.Clear [97])
      ⟨false, false, .RawStartIndex⟩ 11
      (.StartIndex (.IndexMatch 0 0) (.IndexMatch 0 0)) = some (.u 1) :=
  (C6_start_index_fold ⟨[97], ⟨false, false, false⟩⟩ (.Clear [97])
    ⟨false, false, .RawStartIndex⟩ 10 (.IndexMatch 0 0) (.IndexMatch 0 0) 1 1
    (by decide) (by decide) (by decide) (by decide)).2.1 (by decide)

/-! ### Claim C7 -/

/-- Claim C7 counterexample: for `S = [97, 0]` with end padding (the block-2
encryption of `"a"`) and the unpadded `P = "a"`, the code's `rfind` returns
0 (matching cleartext `"a".rfind("a")`), while the claim's formula with the
*public* ciphertext length `N = 2` yields 1: the code maps back with the
encrypted non-zero count `self.len()`, not with `N`. -/
theorem C7_rfind_public_length_counterexample :
    (⟨[97, 0], ⟨false, false, true⟩⟩ : FheString).rfind
        ⟨[97], ⟨false, false, false⟩⟩ 32 = some 0 ∧
      rfindClaim ⟨[97, 0], ⟨false, false, true⟩⟩
        ⟨[97], ⟨false, false, false⟩⟩ 32 = some 1 ∧
      (0 : Int) ≠ (1 : Int) := by
  refine ⟨by decide, by decide, by decide⟩

/-- Claim C7 as amended: `rfind` is find on the reversed pair mapped back via
`len(S) - M - rev + 1 - 1` (i16-wrapped), masked by `rev > -1` so it
returns -1 when the reversed find reports no match, where `len(S)` is the
*encrypted count of non-zero bytes* of `S` (equal to the public length `N`
only when `S` contains no zeros). -/
theorem C7_rfind_maps_back (s pattern : FheString) (fuel : Nat) :
    FheString.rfind s pattern fuel = rfindSpec s pattern fuel := by
  unfold FheString.rfind rfindSpec
  cases hfind : (s.reversed).find pattern.reversed fuel with
  | none => rfl
  | some revFind =>
    simp only
    congr 1
    by_cases hmask : (-1 : Int) < revFind
    · rw [if_pos hmask, if_pos hmask]
      have hlen := lenVal_lt s
      simp only [i16sub, i16add, i16mul, one_mul, i16ofU16, i16w]
      split_ifs <;> omega
    · rw [if_neg hmask, if_neg hmask]
      simp only [i16sub, i16mul, zero_mul, i16w]
      omega

/-! ### Claim C8 -/

/-- Claim C8 counterexample: the ASCII input `"a\x00"` whose only NUL byte is
trailing is rejected by `encrypt` (the code asserts
`!clear_str.contains('\x00')`, with no trailing-NUL exemption), while the
claim says such an input is accepted. -/
theorem C8_trailing_nul_counterexample :
    encrypt 0 [97, 0] = Option.none ∧ isAsciiStr [97, 0] = true := by
  refine ⟨by decide, by decide⟩

/-- Claim C8 as amended: `encrypt` aborts exactly when the input is
non-ASCII or contains *any* NUL byte, trailing NULs included. -/
theorem C8_encrypt_rejects_any_nul (padding : Nat) (s : List Nat) :
    encrypt padding s = Option.none ↔
      (isAsciiStr s = false ∨ containsNul s = true) := by
  unfold encrypt
  split_ifs with h
  · simp only [Bool.and_eq_true, Bool.not_eq_true'] at h
    simp [h.1, h.2]
  · simp only [Bool.and_eq_true, Bool.not_eq_true'] at h
    constructor
    · intro _
      by_cases ha : isAsciiStr s = true
      · exact Or.inr (by simpa [ha] using h)
      · exact Or.inl (by simpa using ha)
    · intro _; rfl

/-! ### Claim C9 -/

/-- Claim C9: `to_uppercase` and `to_lowercase` are idempotent up to
decryption — applying either twice decrypts to the same string as applying
it once (in fact the whole byte vector is unchanged by the second
application, and the padding descriptor is preserved by both). -/
theorem C9_case_fold_idempotent (s : FheString) :
    decryptStr (s.toUppercase.toUppercase) = decryptStr s.toUppercase ∧
      decryptStr (s.toLowercase.toLowercase) = decryptStr s.toLowercase := by
  have hu : (s.chars.map toUpperByte).map toUpperByte =
      s.chars.map toUpperByte := by
    rw [List.map_map]
    exact List.map_congr_left fun a _ => toUpperByte_idem a
  have hl : (s.chars.map toLowerByte).map toLowerByte =
      s.chars.map toLowerByte := by
    rw [List.map_map]
    exact List.map_congr_left fun a _ => toLowerByte_idem a
  constructor
  · simp [decryptStr, FheString.toUppercase, hu]
  · simp [decryptStr, FheString.toLowercase, hl]

/-! ### Claim C10 -/

/-- Claim C10: for every ASCII input with no NUL byte and every padding
block size (including 0), decryption of the encryption returns exactly the
original bytes — the appended padding zeros are dropped and the non-zero
original bytes are kept in order. -/
theorem C10_roundtrip (padding : Nat) (s : List Nat)
    (hascii : ∀ b ∈ s, b ≤ 127) (hnonul : 0 ∉ s) :
    (encrypt padding s).map decryptStr = some s := by
  have ha : isAsciiStr s = true := by
    simp only [isAsciiStr, List.all_eq_true, decide_eq_true_eq]
    exact hascii
  have hn : containsNul s = false := by
    simp only [containsNul]
    simpa using hnonul
  have hfz : ∀ n,
      (List.replicate n (0 : Nat)).filter (fun b => decide (b ≠ 0)) = [] := by
    intro n
    induction n with
    | zero => rfl
    | succ m ih => simp [List.replicate_succ, ih]
  have hfs : s.filter (fun b => decide (b ≠ 0)) = s := by
    rw [List.filter_eq_self]
    intro a haMem
    have : a ≠ 0 := fun hEq => hnonul (hEq ▸ haMem)
    simpa using this
  simp only [encrypt, ha, hn, Bool.not_false, Bool.and_self, if_pos,
    Option.map_some']
  simp only [decryptStr, List.filter_append]
  rw [hfs, hfz]
  simp

/-- Witness for `C10_roundtrip`: `"hi"` with padding block 3 round-trips. -/
theorem C10_roundtrip_witness :
    (encrypt 3 [104, 105]).map decryptStr = some [104, 105] :=
  C10_roundtrip 3 [104, 105] (by decide) (by decide)

end FheStrings
